import Mathlib

/-!
Verification development for the extraction-and-matching pipeline of
`app.py` (Universal File Data Joiner).

The Python source is shallowly embedded: pure helpers become Lean
functions over `String`/`List`, a raised exception becomes the `error`
branch of `Except`, and the opaque third-party similarity scorers
(`fuzz.ratio`, `fuzz.token_set_ratio`) become function parameters.
Python string primitives (`strip`, `splitlines`, `lower`, `endswith`)
are modelled by explicit structurally recursive functions over the
character list of a string, so that every definition evaluates on
concrete inputs.
-/

set_option maxRecDepth 4096

namespace PdfJoiner

/-! ## Definitions: the shallow embedding of the pipeline -/

/-- Whitespace characters removed by Python's `str.strip`. -/
def pyWhitespace (c : Char) : Bool :=
  c = ' ' || c = '\t' || c = '\n' || c = '\r' || c = '\x0b' || c = '\x0c'

/-- Python `str.strip`: drop leading and trailing whitespace. -/
def pyStrip (s : String) : String :=
  ⟨((s.data.dropWhile pyWhitespace).reverse.dropWhile pyWhitespace).reverse⟩

/-- Lower-case one ASCII character (Python `str.lower` on the alphabets
that occur in the modelled inputs). -/
def lowerChar (c : Char) : Char :=
  if 'A' ≤ c && c ≤ 'Z' then Char.ofNat (c.toNat + 32) else c

/-- Python `str.lower`. -/
def pyLower (s : String) : String := ⟨s.data.map lowerChar⟩

/-- Split a character list at every occurrence of `sep`; `acc` holds the
(reversed) characters of the chunk currently being read. -/
def splitCharAux (sep : Char) : List Char → List Char → List (List Char)
  | [], acc => [acc.reverse]
  | c :: cs, acc =>
    if c = sep then acc.reverse :: splitCharAux sep cs []
    else splitCharAux sep cs (c :: acc)

/-- Split a character list at every occurrence of `sep`. -/
def splitChar (sep : Char) (l : List Char) : List (List Char) :=
  splitCharAux sep l []

/-- The lines of a string (Python `str.splitlines`; a trailing newline
produces a final empty chunk here, which every caller filters away). -/
def pyLines (s : String) : List String :=
  (splitChar '\n' s.data).map (fun cs => (⟨cs⟩ : String))

/-- The body of the source's line loops: strip each line and keep the
non-empty ones. -/
def cleanLines (s : String) : List String :=
  ((pyLines s).map pyStrip).filter (fun l => l != "")

/-- The `seen`/`uniq` loop of `find_common_text`: drop every element
already emitted (first occurrence wins). -/
def dedupAux : List String → List String → List String
  | _, [] => []
  | seen, x :: xs =>
    if x ∈ seen then dedupAux seen xs else x :: dedupAux (x :: seen) xs

/-- Deduplicate, preserving the position of each first occurrence. -/
def dedupFirst (l : List String) : List String := dedupAux [] l

/-- The inner loop of `find_common_text`: does some line of `text2`
score at least `threshold` against `t1`?  (`break` on the first hit is
the short-circuiting of `List.any`.) -/
def lineMatches (tsr : String → String → Nat) (threshold : Nat)
    (text2 : List String) (t1 : String) : Bool :=
  text2.any (fun t2 => decide (threshold ≤ tsr t1 t2))

/-- `find_common_text(text1, text2, threshold)` from the source; `tsr`
stands for `fuzz.token_set_ratio`. -/
def find_common_text (tsr : String → String → Nat)
    (text1 text2 : List String) (threshold : Nat) : List String :=
  dedupFirst (text1.foldl
    (fun acc t1 => if lineMatches tsr threshold text2 t1 then acc ++ [t1] else acc) [])

/-! ### Column matcher (`join_cols` loop and selection, lines 92-104) -/
/-- One candidate `(col1, col2, score)` as appended by the nested loop. -/
abbrev ColCand := String × String × Nat

/-- The `join_cols` list built by the nested loop over the two tables'
columns; `fr` stands for `fuzz.ratio`, applied to the lower-cased
names, and only scores strictly above 80 are appended. -/
def join_cols (fr : String → String → Nat) (cols1 cols2 : List String) :
    List ColCand :=
  cols1.flatMap (fun c1 => cols2.filterMap (fun c2 =>
    if 80 < fr (pyLower c1) (pyLower c2) then
      some (c1, c2, fr (pyLower c1) (pyLower c2))
    else none))

/-- Insert a candidate in front of the first strictly smaller score
(the shape of one step of a stable descending sort). -/
def insertDesc (x : ColCand) : List ColCand → List ColCand
  | [] => [x]
  | y :: ys => if y.2.2 ≤ x.2.2 then x :: y :: ys else y :: insertDesc x ys

/-- Python's `sorted(candidates, key=score, reverse=True)`: a stable
sort, descending on the score component. -/
def sortScoreDesc : List ColCand → List ColCand
  | [] => []
  | x :: xs => insertDesc x (sortScoreDesc xs)

/-- The selected candidate: head of the descending sort when the list
is non-empty, `none` otherwise (lines 102-104 of the source). -/
def best_join (fr : String → String → Nat) (cols1 cols2 : List String) :
    Option ColCand :=
  (sortScoreDesc (join_cols fr cols1 cols2)).head?

/-- The greatest score among a candidate list. -/
def maxScore (l : List ColCand) : Nat := l.foldr (fun p m => max p.2.2 m) 0

/-- The first (earliest-encountered) candidate attaining the greatest
score. -/
def firstMax (l : List ColCand) : Option ColCand :=
  l.find? (fun p => p.2.2 == maxScore l)

/-! ### Content extraction (`extract_from_file` and helpers, lines 17-65)

A pdf page is seen through two pdfplumber calls; `Except.error`
models the call raising an exception, `Except.ok none` a call that
returns `None`, and `Except.ok (some v)` a successful extraction. -/
structure Page where
  table : Except String (Option (List (List String)))
  text : Except String (Option String)

/-- A pandas DataFrame: ordered column names and rows of cells. -/
structure DF where
  cols : List String
  rows : List (List String)
deriving DecidableEq

/-- The page loop of `extract_tables_pdfplumber`.  The `try` block wraps
the whole loop, so a raised exception propagates out of the loop; an
empty extracted table is falsy in Python and is skipped. -/
def collectTables : List Page → List DF → Except String (List DF)
  | [], acc => Except.ok acc
  | p :: ps, acc =>
    match p.table with
    | Except.error e => Except.error e
    | Except.ok none => collectTables ps acc
    | Except.ok (some []) => collectTables ps acc
    | Except.ok (some (hd :: rest)) => collectTables ps (acc ++ [⟨hd, rest⟩])

/-- `pd.concat(tables, ignore_index=True)`.  (pandas aligns the columns
of later tables by name and pads missing ones; no claim below depends
on the alignment rule, so rows are simply concatenated under the first
table's header.) -/
def concatTables (dfs : List DF) : DF :=
  ⟨(dfs.headD ⟨[], []⟩).cols, dfs.flatMap (fun d => d.rows)⟩

/-- `extract_tables_pdfplumber(file)`: any exception is caught at the
function level and yields `None`; otherwise the page tables, if any,
are concatenated. -/
def extract_tables_pdfplumber (pages : List Page) : Option DF :=
  match collectTables pages [] with
  | Except.error _ => none
  | Except.ok [] => none
  | Except.ok (d :: ds) => some (concatTables (d :: ds))

/-- The page loop of `extract_text_clean`; `lines` is initialised
before the `try`, so on an exception the lines accumulated so far are
returned and the remaining pages are skipped. -/
def collectText : List Page → List String → List String
  | [], acc => acc
  | p :: ps, acc =>
    match p.text with
    | Except.error _ => acc
    | Except.ok none => collectText ps acc
    | Except.ok (some txt) => collectText ps (acc ++ cleanLines txt)

/-- `extract_text_clean(file)` from the source. -/
def extract_text_clean (pages : List Page) : List String :=
  collectText pages []

/-- An uploaded file: its name plus what each external parser would
produce on it (the parsers themselves are third-party; their outcome on
this input, including a raised parse exception, is part of the input). -/
structure SrcFile where
  name : String
  csvParse : Except String DF
  excelParse : Except String DF
  content : String
  pages : List Page

/-- Python `str.endswith`. -/
def strEndsWith (s p : String) : Bool := p.data.isSuffixOf s.data

/-- `extract_from_file(file)`: dispatch on the lower-cased file name.
The pdf branch never raises (all failures are swallowed inside the two
helpers); the csv/excel branches call the parser with no handler, so a
parse failure propagates as `Except.error`. -/
def extract_from_file (f : SrcFile) :
    Except String (Option DF × Option (List String)) :=
  if strEndsWith (pyLower f.name) ".pdf" then
    match extract_tables_pdfplumber f.pages with
    | some df => Except.ok (some df, none)
    | none => Except.ok (none, some (extract_text_clean f.pages))
  else if strEndsWith (pyLower f.name) ".csv" then
    match f.csvParse with
    | Except.ok df => Except.ok (some df, none)
    | Except.error e => Except.error e
  else if strEndsWith (pyLower f.name) ".xlsx" || strEndsWith (pyLower f.name) ".xls" then
    match f.excelParse with
    | Except.ok df => Except.ok (some df, none)
    | Except.error e => Except.error e
  else if strEndsWith (pyLower f.name) ".txt" then
    Except.ok (none, some (cleanLines f.content))
  else
    Except.ok (none, none)

/-! ### Concrete inputs used in counterexamples and witnesses -/
def pageT1 : Page := ⟨Except.ok (some [["H"], ["v1"]]), Except.ok (some "alpha")⟩

def pageBoom : Page := ⟨Except.error "boom", Except.error "boom"⟩

def pageT2 : Page := ⟨Except.ok (some [["H"], ["v2"]]), Except.ok (some "beta")⟩

def pageDupText : Page := ⟨Except.ok none, Except.ok (some "x\nx")⟩

def badCsv : SrcFile :=
  ⟨"data.csv", Except.error "parse error", Except.ok ⟨[], []⟩, "", []⟩

def badCsv2 : SrcFile :=
  ⟨"other.CSV", Except.error "oops", Except.ok ⟨[], []⟩, "", []⟩

def badXlsx : SrcFile :=
  ⟨"Sheet.XLSX", Except.ok ⟨[], []⟩, Except.error "bad sheet", "", []⟩

/-- What one page contributes to the text fallback. -/
def pageTextLines (p : Page) : List String :=
  match p.text with
  | Except.ok (some t) => cleanLines t
  | _ => []

/-! ### Table join (`pd.merge(df1, df2, left_on, right_on, how)`, line 106) -/
inductive JoinType where
  | inner
  | left
  | right
  | outer
deriving DecidableEq

/-- Position of a column name in a header. -/
def colIdx : List String → String → Option Nat
  | [], _ => none
  | c :: cs, x => if c = x then some 0 else (colIdx cs x).map (· + 1)

/-- The cell of `row` under column `c` of `df`. -/
def cellValue (df : DF) (c : String) (row : List String) : String :=
  match colIdx df.cols c with
  | some i => row.getD i ""
  | none => ""

/-- The rows of `df2` whose key equals the key of the `df1` row `ra`. -/
def rowMatchesB (df1 df2 : DF) (c1 c2 : String) (ra : List String) :
    List (List String) :=
  df2.rows.filter (fun rb => cellValue df2 c2 rb == cellValue df1 c1 ra)

/-- The rows of `df1` whose key equals the key of the `df2` row `rb`. -/
def rowMatchesA (df1 df2 : DF) (c1 c2 : String) (rb : List String) :
    List (List String) :=
  df1.rows.filter (fun ra => cellValue df2 c2 rb == cellValue df1 c1 ra)

/-- Null padding for the unmatched side of an outer-style join. -/
def nulls (n : Nat) : List String := List.replicate n ""

def innerRows (df1 df2 : DF) (c1 c2 : String) : List (List String) :=
  df1.rows.flatMap (fun ra =>
    (rowMatchesB df1 df2 c1 c2 ra).map (fun rb => ra ++ rb))

def leftRows (df1 df2 : DF) (c1 c2 : String) : List (List String) :=
  df1.rows.flatMap (fun ra =>
    match rowMatchesB df1 df2 c1 c2 ra with
    | [] => [ra ++ nulls df2.cols.length]
    | ms => ms.map (fun rb => ra ++ rb))

def rightRows (df1 df2 : DF) (c1 c2 : String) : List (List String) :=
  df2.rows.flatMap (fun rb =>
    match rowMatchesA df1 df2 c1 c2 rb with
    | [] => [nulls df1.cols.length ++ rb]
    | ms => ms.map (fun ra => ra ++ rb))

def unmatchedB (df1 df2 : DF) (c1 c2 : String) : List (List String) :=
  (df2.rows.filter (fun rb => (rowMatchesA df1 df2 c1 c2 rb).isEmpty)).map
    (fun rb => nulls df1.cols.length ++ rb)

def outerRows (df1 df2 : DF) (c1 c2 : String) : List (List String) :=
  leftRows df1 df2 c1 c2 ++ unmatchedB df1 df2 c1 c2

/-- The rows of `pd.merge(df1, df2, left_on=c1, right_on=c2, how=how)`
(row order inside the result differs from pandas for non-inner modes,
which no claim depends on). -/
def mergeRows (df1 df2 : DF) (c1 c2 : String) : JoinType → List (List String)
  | JoinType.inner => innerRows df1 df2 c1 c2
  | JoinType.left => leftRows df1 df2 c1 c2
  | JoinType.right => rightRows df1 df2 c1 c2
  | JoinType.outer => outerRows df1 df2 c1 c2

/-- The merged frame (pandas suffixes duplicated column names with
`_x`/`_y`; the claims below do not depend on the header renaming). -/
def merge (df1 df2 : DF) (c1 c2 : String) (how : JoinType) : DF :=
  ⟨df1.cols ++ df2.cols, mergeRows df1 df2 c1 c2 how⟩

/-- The largest number of `df2`-matches that any single `df1` row has:
the join fan-out. -/
def fanOut (df1 df2 : DF) (c1 c2 : String) : Nat :=
  (df1.rows.map (fun ra => (rowMatchesB df1 df2 c1 c2 ra).length)).foldr max 0

def dfA8 : DF := ⟨["ID"], [["1"]]⟩

def dfB8 : DF := ⟨["id"], [["1"], ["1"]]⟩

/-! ### Pipeline coordinator (core logic, lines 83-132) -/
/-- The distinguishable user-visible outcomes of one run. -/
inductive Outcome where
  | joined (df : DF)
  | emptyJoin
  | noJoinColumns (cols1 cols2 : List String)
  | textMatched (lines : List String)
  | noCommonText
  | noData
deriving DecidableEq

/-- Python truthiness of the `text` component (`None` and `[]` are
falsy). -/
def textTruthy : Option (List String) → Bool
  | none => false
  | some l => !l.isEmpty

/-- The branch structure of lines 89-132: join mode when both
extractions produced a table, text mode when both `text` values are
truthy, and the final "could not detect" message otherwise. -/
def coordinator (fr tsr : String → String → Nat)
    (r1 r2 : Option DF × Option (List String)) (how : JoinType) : Outcome :=
  match r1.1, r2.1 with
  | some df1, some df2 =>
    match best_join fr df1.cols df2.cols with
    | some (c1, c2, _) =>
      if (merge df1 df2 c1 c2 how).rows.isEmpty then Outcome.emptyJoin
      else Outcome.joined (merge df1 df2 c1 c2 how)
    | none => Outcome.noJoinColumns df1.cols df2.cols
  | _, _ =>
    if textTruthy r1.2 && textTruthy r2.2 then
      if (find_common_text tsr (r1.2.getD []) (r2.2.getD []) 85).isEmpty then
        Outcome.noCommonText
      else Outcome.textMatched (find_common_text tsr (r1.2.getD []) (r2.2.getD []) 85)
    else Outcome.noData

def dfC7 : DF := ⟨["A"], [["1"]]⟩

/-! ### Delimited-text round trip (lines 112-113 and 26-27)

The source delegates serialisation to `pandas.DataFrame.to_csv` and
re-parsing to `pandas.read_csv`, which are third-party code, not part
of this repository; both are modelled from the spec below. -/
/-- Join chunks with a separator character. -/
def joinChar (sep : Char) : List (List Char) → List Char
  | [] => []
  | [p] => p
  | p :: ps => p ++ sep :: joinChar sep ps

/-- Modelled from the spec: the delimited-text serialisation of a join
result's table — "comma-separated, header row, one record per row"
(`common.to_csv(index=False)` in the source is external pandas code). -/
def toCsv (df : DF) : String :=
  ⟨joinChar '\n'
    (joinChar ',' (df.cols.map String.data)
      :: df.rows.map (fun r => joinChar ',' (r.map String.data)))⟩

/-- Modelled from the spec: the Extractor's delimited re-parse — "first
row (or declared header) supplies column names" (`pd.read_csv` in the
source is external pandas code). -/
def parseRows : List (List String) → DF
  | [] => ⟨[], []⟩
  | header :: rest => ⟨header, rest⟩

def parseCsv (s : String) : DF :=
  parseRows ((splitChar '\n' s.data).map
    (fun line => (splitChar ',' line).map (fun cs => (⟨cs⟩ : String))))

def dfComma : DF := ⟨["A", "B"], [["x,y", "z"]]⟩

def dfJoined : DF := ⟨["ID", "Name", "id", "Score"], [["1", "Alice", "1", "90"]]⟩

/-! ### Concrete similarity function and remaining witnesses -/
/-- A concrete stand-in scorer: 100 for equal strings, 0 otherwise. -/
def exactScore (a b : String) : Nat := if a = b then 100 else 0

def txtNotes : SrcFile :=
  ⟨"notes.txt", Except.ok ⟨[], []⟩, Except.ok ⟨[], []⟩, " alpha \nbeta", []⟩

/-! ## Theorems -/

/-! ### Lemmas about the text matcher -/
theorem foldl_append_filter (p : String → Bool) (l acc : List String) :
    l.foldl (fun acc t1 => if p t1 then acc ++ [t1] else acc) acc
      = acc ++ l.filter p := by
  induction l generalizing acc with
  | nil => simp
  | cons x xs ih =>
    cases h : p x <;> simp [List.filter_cons, h, ih]

theorem mem_dedupAux (x : String) :
    ∀ (l seen : List String), x ∈ dedupAux seen l ↔ x ∈ l ∧ x ∉ seen := by
  intro l
  induction l with
  | nil => intro seen; simp [dedupAux]
  | cons y ys ih =>
    intro seen
    simp only [dedupAux]
    split
    · rename_i hy
      rw [ih]
      simp only [List.mem_cons]
      constructor
      · exact fun h => ⟨Or.inr h.1, h.2⟩
      · rintro ⟨hx | hx, hs⟩
        · exact absurd (hx ▸ hy) hs
        · exact ⟨hx, hs⟩
    · rename_i hy
      simp only [List.mem_cons, ih]
      constructor
      · rintro (rfl | ⟨hx, hs⟩)
        · exact ⟨Or.inl rfl, hy⟩
        · exact ⟨Or.inr hx, fun hm => hs (Or.inr hm)⟩
      · rintro ⟨rfl | hx, hs⟩
        · exact Or.inl rfl
        · by_cases hxy : x = y
          · exact Or.inl hxy
          · exact Or.inr ⟨hx, fun hm => hm.elim hxy hs⟩

theorem nodup_dedupAux : ∀ (l seen : List String), (dedupAux seen l).Nodup := by
  intro l
  induction l with
  | nil => intro seen; simp [dedupAux]
  | cons y ys ih =>
    intro seen
    simp only [dedupAux]
    split
    · exact ih seen
    · refine List.nodup_cons.mpr ⟨fun hmem => ?_, ih (y :: seen)⟩
      exact ((mem_dedupAux y ys (y :: seen)).mp hmem).2 (List.mem_cons_self y seen)

theorem dedupAux_sublist : ∀ (l seen : List String), List.Sublist (dedupAux seen l) l := by
  intro l
  induction l with
  | nil => intro seen; simp [dedupAux]
  | cons y ys ih =>
    intro seen
    simp only [dedupAux]
    split
    · exact (ih seen).cons y
    · exact (ih (y :: seen)).cons₂ y

/-- C2: the Text Matcher retains a line of `text1` exactly when some line
of `text2` scores at least the threshold, keeps `text1`'s order, and
deduplicates preserving first occurrences; the reported count is the
length of the deduplicated list. -/
theorem find_common_text_characterisation (tsr : String → String → Nat)
    (text1 text2 : List String) (threshold : Nat) :
    find_common_text tsr text1 text2 threshold
        = dedupFirst (text1.filter (lineMatches tsr threshold text2))
    ∧ (∀ l, l ∈ find_common_text tsr text1 text2 threshold ↔
        l ∈ text1 ∧ ∃ l2 ∈ text2, threshold ≤ tsr l l2)
    ∧ (find_common_text tsr text1 text2 threshold).Nodup
    ∧ List.Sublist (find_common_text tsr text1 text2 threshold) text1 := by
  have hfold : find_common_text tsr text1 text2 threshold
      = dedupFirst (text1.filter (lineMatches tsr threshold text2)) := by
    unfold find_common_text
    rw [foldl_append_filter, List.nil_append]
  refine ⟨hfold, ?_, ?_, ?_⟩
  · intro l
    rw [hfold]
    unfold dedupFirst
    rw [mem_dedupAux]
    simp [List.mem_filter, lineMatches, List.any_eq_true]
  · rw [hfold]; exact nodup_dedupAux _ _
  · rw [hfold]
    exact (dedupAux_sublist _ _).trans (List.filter_sublist _)

/-- C10: the Text Matcher's output depends only on which lines are
members of `text2`, not on their order or multiplicity. -/
theorem find_common_text_mem_invariant (tsr : String → String → Nat)
    (text1 textB textB2 : List String) (threshold : Nat)
    (h : ∀ l, l ∈ textB ↔ l ∈ textB2) :
    find_common_text tsr text1 textB threshold
      = find_common_text tsr text1 textB2 threshold := by
  have hmatch : lineMatches tsr threshold textB = lineMatches tsr threshold textB2 := by
    funext t1
    have hiff : lineMatches tsr threshold textB t1 = true
        ↔ lineMatches tsr threshold textB2 t1 = true := by
      simp only [lineMatches, List.any_eq_true]
      constructor
      · rintro ⟨t2, ht2, hs⟩; exact ⟨t2, (h t2).mp ht2, hs⟩
      · rintro ⟨t2, ht2, hs⟩; exact ⟨t2, (h t2).mpr ht2, hs⟩
    cases hb : lineMatches tsr threshold textB t1 with
    | true => exact (hiff.mp hb).symm
    | false =>
      cases hb2 : lineMatches tsr threshold textB2 t1 with
      | true => exact absurd (hiff.mpr hb2) (by simp [hb])
      | false => rfl
  unfold find_common_text
  rw [hmatch]

theorem insertDesc_ne_nil (x : ColCand) (l : List ColCand) :
    insertDesc x l ≠ [] := by
  cases l with
  | nil => simp [insertDesc]
  | cons y ys =>
    simp only [insertDesc]
    split <;> simp

theorem sortScoreDesc_eq_nil_iff (l : List ColCand) :
    sortScoreDesc l = [] ↔ l = [] := by
  cases l with
  | nil => simp [sortScoreDesc]
  | cons x xs =>
    simp only [sortScoreDesc]
    exact ⟨fun h => absurd h (insertDesc_ne_nil x _), fun h => by cases h⟩

theorem le_maxScore (l : List ColCand) : ∀ p ∈ l, p.2.2 ≤ maxScore l := by
  induction l with
  | nil => simp
  | cons x xs ih =>
    intro p hp
    rcases List.mem_cons.mp hp with rfl | hp
    · exact Nat.le_max_left _ _
    · exact (ih p hp).trans (Nat.le_max_right _ _)

theorem maxScore_cons (x : ColCand) (xs : List ColCand) :
    maxScore (x :: xs) = max x.2.2 (maxScore xs) := rfl

theorem firstMax_score (l : List ColCand) (p : ColCand)
    (h : firstMax l = some p) : p.2.2 = maxScore l := by
  have := List.find?_some h
  exact eq_of_beq this

theorem head_sortScoreDesc :
    ∀ l : List ColCand, (sortScoreDesc l).head? = firstMax l := by
  intro l
  induction l with
  | nil => rfl
  | cons x xs ih =>
    cases hxs : sortScoreDesc xs with
    | nil =>
      have hnil : xs = [] := (sortScoreDesc_eq_nil_iff xs).mp hxs
      subst hnil
      simp [sortScoreDesc, insertDesc, firstMax, maxScore]
    | cons y t =>
      have hy : firstMax xs = some y := by rw [← ih, hxs]; rfl
      have hysc : y.2.2 = maxScore xs := firstMax_score xs y hy
      by_cases hle : y.2.2 ≤ x.2.2
      · have hmax : maxScore (x :: xs) = x.2.2 := by
          rw [maxScore_cons]
          exact Nat.max_eq_left (hysc ▸ hle)
        have hfm : firstMax (x :: xs) = some x := by
          simp only [firstMax, hmax]
          exact List.find?_cons_of_pos _ (by simp)
        simp only [sortScoreDesc, hxs, insertDesc, if_pos hle, List.head?_cons, hfm]
      · have hlt : x.2.2 < y.2.2 := Nat.lt_of_not_le hle
        have hmax : maxScore (x :: xs) = maxScore xs := by
          rw [maxScore_cons]
          exact Nat.max_eq_right (hysc ▸ Nat.le_of_lt hlt)
        have hxlt : x.2.2 < maxScore xs := hysc ▸ hlt
        have hfm : firstMax (x :: xs) = firstMax xs := by
          simp only [firstMax, hmax]
          exact List.find?_cons_of_neg _ (by simp [Nat.ne_of_lt hxlt])
        simp only [sortScoreDesc, hxs, insertDesc, if_neg hle, List.head?_cons, hfm, hy]

/-- C1: the Column Matcher retains exactly the ordered pairs whose
case-insensitive score is strictly above 80; it selects the retained
pair with the greatest score, ties broken by the earliest pair in
(outer, inner) iteration order; it returns `none` exactly when no pair
scores above 80. -/
theorem column_matcher_correct (fr : String → String → Nat)
    (cols1 cols2 : List String) :
    (∀ c1 c2 s, (c1, c2, s) ∈ join_cols fr cols1 cols2 ↔
        (c1 ∈ cols1 ∧ c2 ∈ cols2 ∧ s = fr (pyLower c1) (pyLower c2) ∧ 80 < s))
    ∧ best_join fr cols1 cols2 = firstMax (join_cols fr cols1 cols2)
    ∧ (∀ p, best_join fr cols1 cols2 = some p →
        p ∈ join_cols fr cols1 cols2 ∧ ∀ q ∈ join_cols fr cols1 cols2, q.2.2 ≤ p.2.2)
    ∧ (best_join fr cols1 cols2 = none ↔
        ∀ c1 ∈ cols1, ∀ c2 ∈ cols2, fr (pyLower c1) (pyLower c2) ≤ 80) := by
  have hmem : ∀ c1 c2 s, (c1, c2, s) ∈ join_cols fr cols1 cols2 ↔
      (c1 ∈ cols1 ∧ c2 ∈ cols2 ∧ s = fr (pyLower c1) (pyLower c2) ∧ 80 < s) := by
    intro c1 c2 s
    simp only [join_cols, List.mem_flatMap, List.mem_filterMap]
    constructor
    · rintro ⟨a, ha, b, hb, hsome⟩
      by_cases hgt : 80 < fr (pyLower a) (pyLower b)
      · rw [if_pos hgt] at hsome
        simp only [Option.some.injEq, Prod.mk.injEq] at hsome
        obtain ⟨rfl, rfl, rfl⟩ := hsome
        exact ⟨ha, hb, rfl, hgt⟩
      · rw [if_neg hgt] at hsome
        cases hsome
    · rintro ⟨h1, h2, rfl, hgt⟩
      exact ⟨c1, h1, c2, h2, by rw [if_pos hgt]⟩
  have hbest : best_join fr cols1 cols2 = firstMax (join_cols fr cols1 cols2) :=
    head_sortScoreDesc _
  refine ⟨hmem, hbest, ?_, ?_⟩
  · intro p hp
    rw [hbest] at hp
    refine ⟨List.mem_of_find?_eq_some hp, fun q hq => ?_⟩
    rw [firstMax_score _ _ hp]
    exact le_maxScore _ q hq
  · rw [hbest]
    have hnil : firstMax (join_cols fr cols1 cols2) = none
        ↔ join_cols fr cols1 cols2 = [] := by
      constructor
      · intro h
        cases hjc : join_cols fr cols1 cols2 with
        | nil => rfl
        | cons x xs =>
          rw [← head_sortScoreDesc, hjc] at h
          exact absurd (List.head?_eq_none_iff.mp h)
            (insertDesc_ne_nil x (sortScoreDesc xs))
      · intro h; rw [h]; rfl
    rw [hnil, List.eq_nil_iff_forall_not_mem]
    constructor
    · intro h c1 h1 c2 h2
      by_contra hgt
      exact h (c1, c2, fr (pyLower c1) (pyLower c2))
        ((hmem c1 c2 _).mpr ⟨h1, h2, rfl, Nat.lt_of_not_le hgt⟩)
    · rintro h ⟨c1, c2, s⟩ hx
      obtain ⟨h1, h2, rfl, hgt⟩ := (hmem c1 c2 s).mp hx
      exact absurd hgt (Nat.not_lt.mpr (h c1 h1 c2 h2))

/-- C6: whenever `extract_from_file` returns normally, its result is a
table, a line list, or neither — never both at once. -/
theorem extract_from_file_never_both (f : SrcFile)
    (r : Option DF × Option (List String))
    (h : extract_from_file f = Except.ok r) :
    r.1 = none ∨ r.2 = none := by
  unfold extract_from_file at h
  split at h
  · split at h
    · cases h; exact Or.inr rfl
    · cases h; exact Or.inl rfl
  · split at h
    · split at h
      · cases h; exact Or.inr rfl
      · cases h
    · split at h
      · split at h
        · cases h; exact Or.inr rfl
        · cases h
      · split at h
        · cases h; exact Or.inl rfl
        · cases h; exact Or.inl rfl

/-- If some page's table call raises, the loop hits the first raising
page and the whole `try` block aborts with that exception. -/
theorem collectTables_error (pages : List Page) :
    ∀ acc, (∃ p ∈ pages, ∃ e, p.table = Except.error e) →
      ∃ e, collectTables pages acc = Except.error e := by
  induction pages with
  | nil => rintro acc ⟨p, hp, _⟩; cases hp
  | cons q ps ih =>
    rintro acc ⟨p, hp, e, he⟩
    rcases List.mem_cons.mp hp with rfl | hp
    · exact ⟨e, by simp [collectTables, he]⟩
    · cases hq : q.table with
      | error e2 => exact ⟨e2, by simp [collectTables, hq]⟩
      | ok v =>
        have hrest : ∃ p ∈ ps, ∃ e, p.table = Except.error e := ⟨p, hp, e, he⟩
        cases v with
        | none => simpa [collectTables, hq] using ih acc hrest
        | some t =>
          cases t with
          | nil => simpa [collectTables, hq] using ih acc hrest
          | cons hd rest => simpa [collectTables, hq] using ih (acc ++ [⟨hd, rest⟩]) hrest

/-- Text extraction up to a raising page: the pages before it, all
successful, contribute their lines; the raising page stops the loop. -/
theorem collectText_stops_at_error (p : Page) (post : List Page) (e : String)
    (he : p.text = Except.error e) :
    ∀ (pre : List Page) (acc : List String),
      (∀ q ∈ pre, ∃ t, q.text = Except.ok t) →
      collectText (pre ++ p :: post) acc = collectText pre acc := by
  intro pre
  induction pre with
  | nil =>
    intro acc _
    simp [collectText, he]
  | cons q pre ih =>
    intro acc hok
    obtain ⟨t, ht⟩ := hok q (List.mem_cons_self q pre)
    cases t with
    | none => simp [collectText, ht, ih _ (fun q hq => hok q (List.mem_cons_of_mem _ hq))]
    | some txt => simp [collectText, ht, ih _ (fun q hq => hok q (List.mem_cons_of_mem _ hq))]

/-- C3 (amended): a page-level failure is caught at the whole-input
level, not per page.  For table extraction any raising page makes the
whole input yield no table (earlier pages' tables are discarded); for
text extraction the lines accumulated before the raising page are
returned and the pages after it are skipped. -/
theorem page_failure_aborts_input :
    (∀ pages : List Page, (∃ p ∈ pages, ∃ e, p.table = Except.error e) →
      extract_tables_pdfplumber pages = none)
    ∧ (∀ (pre : List Page) (p : Page) (post : List Page) (e : String),
        (∀ q ∈ pre, ∃ t, q.text = Except.ok t) → p.text = Except.error e →
        extract_text_clean (pre ++ p :: post) = extract_text_clean pre) := by
  constructor
  · intro pages hex
    obtain ⟨e, he⟩ := collectTables_error pages [] hex
    unfold extract_tables_pdfplumber
    rw [he]
  · intro pre p post e hok he
    unfold extract_text_clean
    exact collectText_stops_at_error p post e he pre [] hok

/-- C3 counterexample: with a good page, a raising page, then another
good page, the whole input yields no table at all — the page already
extracted and the page after the failure do not contribute (each good
page alone does yield its table), and the text of the page after the
failure is likewise lost. -/
theorem page_failure_counterexample :
    extract_tables_pdfplumber [pageT1, pageBoom, pageT2] = none
    ∧ extract_tables_pdfplumber [pageT1] = some ⟨["H"], [["v1"]]⟩
    ∧ extract_tables_pdfplumber [pageT2] = some ⟨["H"], [["v2"]]⟩
    ∧ extract_text_clean [pageT1, pageBoom, pageT2] = ["alpha"] := by
  decide

/-- C3 witness: the amended theorem applied to the three-page input. -/
theorem page_failure_aborts_input_w :
    extract_tables_pdfplumber [pageT1, pageBoom, pageT2] = none
    ∧ extract_text_clean [pageT1, pageBoom, pageT2] = extract_text_clean [pageT1] := by
  constructor
  · exact page_failure_aborts_input.1 [pageT1, pageBoom, pageT2]
      ⟨pageBoom, List.mem_cons_of_mem pageT1 (List.mem_cons_self pageBoom [pageT2]),
        "boom", rfl⟩
  · exact page_failure_aborts_input.2 [pageT1] pageBoom [pageT2] "boom"
      (by
        intro q hq
        rcases List.mem_singleton.mp hq with rfl
        exact ⟨some "alpha", rfl⟩)
      rfl

/-- C4 counterexample: a csv input whose parse fails makes the
Extractor raise (propagate the exception), not return Empty. -/
theorem csv_failure_counterexample :
    extract_from_file badCsv = Except.error "parse error" := by
  rfl

/-- C4 (amended): a delimited/spreadsheet parse failure propagates out
of the Extractor as an exception (left to the hosting framework), never
as an Empty result; pdf inputs, by contrast, never raise. -/
theorem csv_parse_failure_raises :
    (∀ (f : SrcFile) (e : String),
        strEndsWith (pyLower f.name) ".pdf" = false →
        strEndsWith (pyLower f.name) ".csv" = true →
        f.csvParse = Except.error e →
        extract_from_file f = Except.error e)
    ∧ (∀ (f : SrcFile) (e : String),
        strEndsWith (pyLower f.name) ".pdf" = false →
        strEndsWith (pyLower f.name) ".csv" = false →
        (strEndsWith (pyLower f.name) ".xlsx" || strEndsWith (pyLower f.name) ".xls") = true →
        f.excelParse = Except.error e →
        extract_from_file f = Except.error e)
    ∧ (∀ f : SrcFile, strEndsWith (pyLower f.name) ".pdf" = true →
        ∃ r, extract_from_file f = Except.ok r) := by
  refine ⟨?_, ?_, ?_⟩
  · intro f e h1 h2 h3
    simp [extract_from_file, h1, h2, h3]
  · intro f e h1 h2 h3 h4
    simp [extract_from_file, h1, h2, h3, h4]
  · intro f h
    cases hm : extract_tables_pdfplumber f.pages with
    | some df => exact ⟨(some df, none), by simp [extract_from_file, h, hm]⟩
    | none => exact ⟨(none, some (extract_text_clean f.pages)), by simp [extract_from_file, h, hm]⟩

/-- C4 witness: the amended theorem applied to a failing upper-case-named
csv input and to a failing upper-case-named spreadsheet input. -/
theorem csv_parse_failure_raises_w :
    extract_from_file badCsv2 = Except.error "oops"
    ∧ extract_from_file badXlsx = Except.error "bad sheet" :=
  ⟨csv_parse_failure_raises.1 badCsv2 "oops" (by decide) (by decide) rfl,
    csv_parse_failure_raises.2.1 badXlsx "bad sheet" (by decide) (by decide) (by decide) rfl⟩

/-- C5 counterexample: a pdf whose single page has no table and whose
text repeats a line; the fallback keeps both copies, so the result is
not a sequence of distinct lines. -/
theorem text_fallback_counterexample :
    extract_tables_pdfplumber [pageDupText] = none
    ∧ extract_text_clean [pageDupText] = ["x", "x"]
    ∧ ¬ (extract_text_clean [pageDupText]).Nodup := by
  decide

theorem collectText_ok_append :
    ∀ (pages : List Page) (acc : List String),
      (∀ q ∈ pages, ∃ t, q.text = Except.ok t) →
      collectText pages acc = acc ++ pages.flatMap pageTextLines := by
  intro pages
  induction pages with
  | nil => intro acc _; simp [collectText]
  | cons q ps ih =>
    intro acc hok
    obtain ⟨t, ht⟩ := hok q (List.mem_cons_self q ps)
    have hrest := fun q hq => hok q (List.mem_cons_of_mem _ hq)
    cases t with
    | none => simp [collectText, ht, ih acc hrest, pageTextLines]
    | some txt =>
      simp [collectText, ht, ih (acc ++ cleanLines txt) hrest, pageTextLines]

theorem mem_cleanLines (l t : String) (h : l ∈ cleanLines t) :
    l ≠ "" ∧ ∃ s, l = pyStrip s := by
  unfold cleanLines at h
  obtain ⟨hmem, hne⟩ := List.mem_filter.mp h
  obtain ⟨s, _, rfl⟩ := List.mem_map.mp hmem
  exact ⟨by simpa using hne, s, rfl⟩

theorem mem_collectText :
    ∀ (pages : List Page) (acc : List String) (l : String),
      l ∈ collectText pages acc → l ∈ acc ∨ (l ≠ "" ∧ ∃ s, l = pyStrip s) := by
  intro pages
  induction pages with
  | nil => intro acc l h; exact Or.inl h
  | cons q ps ih =>
    intro acc l h
    cases hq : q.text with
    | error e =>
      rw [collectText, hq] at h
      exact Or.inl h
    | ok v =>
      cases v with
      | none =>
        rw [collectText, hq] at h
        exact ih acc l h
      | some txt =>
        rw [collectText, hq] at h
        rcases ih (acc ++ cleanLines txt) l h with hin | hgood
        · rcases List.mem_append.mp hin with hin | hin
          · exact Or.inl hin
          · exact Or.inr (mem_cleanLines l txt hin)
        · exact Or.inr hgood

/-- C5 (amended): when every page's text call succeeds, the fallback is
the concatenation, in document order, of each page's stripped non-empty
lines — duplicates are retained, not deduplicated; and every produced
line is non-empty and whitespace-stripped. -/
theorem text_fallback_lines :
    (∀ pages : List Page, (∀ q ∈ pages, ∃ t, q.text = Except.ok t) →
      extract_text_clean pages = pages.flatMap pageTextLines)
    ∧ (∀ (pages : List Page) (l : String), l ∈ extract_text_clean pages →
      l ≠ "" ∧ ∃ s, l = pyStrip s) := by
  constructor
  · intro pages h
    unfold extract_text_clean
    simpa using collectText_ok_append pages [] h
  · intro pages l h
    rcases mem_collectText pages [] l h with hin | hgood
    · cases hin
    · exact hgood

/-- C5 witness: the amended theorem applied to the duplicate-line page. -/
theorem text_fallback_lines_w :
    extract_text_clean [pageDupText] = ([pageDupText] : List Page).flatMap pageTextLines :=
  text_fallback_lines.1 [pageDupText]
    (by
      intro q hq
      rcases List.mem_singleton.mp hq with rfl
      exact ⟨some "x\nx", rfl⟩)

/-! ### Counting lemmas for the join row counts -/
theorem length_flatMap_eq_sum {α β : Type} (f : α → List β) (l : List α) :
    (l.flatMap f).length = (l.map (fun a => (f a).length)).sum := by
  induction l with
  | nil => rfl
  | cons x xs ih => simp [List.flatMap_cons, ih]

theorem sum_map_ite_count {β : Type} (p : β → Bool) (B : List β) :
    (B.map (fun b => if p b then 1 else 0)).sum = (B.filter p).length := by
  induction B with
  | nil => rfl
  | cons b bs ih =>
    cases h : p b
    · simp [List.filter_cons, h, ih]
    · simp [List.filter_cons, h, ih]
      omega

theorem sum_map_add_distrib {β : Type} (f g : β → Nat) (B : List β) :
    (B.map (fun b => f b + g b)).sum = (B.map f).sum + (B.map g).sum := by
  induction B with
  | nil => rfl
  | cons b bs ih =>
    simp only [List.map_cons, List.sum_cons, ih]
    omega

theorem double_count {α β : Type} (p : α → β → Bool) (A : List α) (B : List β) :
    (A.map (fun a => (B.filter (p a)).length)).sum
      = (B.map (fun b => (A.filter (fun a => p a b)).length)).sum := by
  induction A with
  | nil => simp
  | cons x A2 ih =>
    have hsplit : (fun b => ((x :: A2).filter (fun a => p a b)).length)
        = fun b => (if p x b then 1 else 0) + (A2.filter (fun a => p a b)).length := by
      funext b
      cases h : p x b
      · simp [List.filter_cons, h]
      · simp [List.filter_cons, h]
        omega
    rw [List.map_cons, List.sum_cons, ih, hsplit, sum_map_add_distrib, sum_map_ite_count]

theorem sum_le_card_mul_max (ns : List Nat) :
    ns.sum ≤ ns.length * ns.foldr max 0 := by
  induction ns with
  | nil => simp
  | cons n ns ih =>
    have h1 : ns.foldr max 0 ≤ max n (ns.foldr max 0) := Nat.le_max_right _ _
    have h2 : ns.length * ns.foldr max 0 ≤ ns.length * max n (ns.foldr max 0) :=
      Nat.mul_le_mul_left _ h1
    have h3 : n ≤ max n (ns.foldr max 0) := Nat.le_max_left _ _
    have h4 : n + ns.sum ≤ max n (ns.foldr max 0) + ns.length * max n (ns.foldr max 0) :=
      Nat.add_le_add h3 (le_trans ih h2)
    simp only [List.sum_cons, List.length_cons, List.foldr_cons]
    calc n + ns.sum
        ≤ max n (ns.foldr max 0) + ns.length * max n (ns.foldr max 0) := h4
      _ = (ns.length + 1) * max n (ns.foldr max 0) := by ring

theorem map_congr_fun {α β : Type} (f g : α → β) (l : List α) (h : ∀ a, f a = g a) :
    l.map f = l.map g := by
  induction l with
  | nil => rfl
  | cons x xs ih => simp only [List.map_cons, h x, ih]

theorem innerRows_length (df1 df2 : DF) (c1 c2 : String) :
    (innerRows df1 df2 c1 c2).length
      = (df1.rows.map (fun ra => (rowMatchesB df1 df2 c1 c2 ra).length)).sum := by
  unfold innerRows
  rw [length_flatMap_eq_sum]
  refine congrArg List.sum (map_congr_fun _ _ _ ?_)
  intro ra
  exact List.length_map _ _

theorem innerRows_length_from_B (df1 df2 : DF) (c1 c2 : String) :
    (innerRows df1 df2 c1 c2).length
      = (df2.rows.map (fun rb => (rowMatchesA df1 df2 c1 c2 rb).length)).sum := by
  rw [innerRows_length]
  exact double_count
    (fun ra rb => cellValue df2 c2 rb == cellValue df1 c1 ra) df1.rows df2.rows

theorem leftRows_length (df1 df2 : DF) (c1 c2 : String) :
    (leftRows df1 df2 c1 c2).length
      = (df1.rows.map (fun ra => (rowMatchesB df1 df2 c1 c2 ra).length
          + (if (rowMatchesB df1 df2 c1 c2 ra).length = 0 then 1 else 0))).sum := by
  unfold leftRows
  rw [length_flatMap_eq_sum]
  refine congrArg List.sum (map_congr_fun _ _ _ ?_)
  intro ra
  cases hm : rowMatchesB df1 df2 c1 c2 ra with
  | nil => simp
  | cons y ys => simp

theorem rightRows_length (df1 df2 : DF) (c1 c2 : String) :
    (rightRows df1 df2 c1 c2).length
      = (df2.rows.map (fun rb => (rowMatchesA df1 df2 c1 c2 rb).length
          + (if (rowMatchesA df1 df2 c1 c2 rb).length = 0 then 1 else 0))).sum := by
  unfold rightRows
  rw [length_flatMap_eq_sum]
  refine congrArg List.sum (map_congr_fun _ _ _ ?_)
  intro rb
  cases hm : rowMatchesA df1 df2 c1 c2 rb with
  | nil => simp
  | cons y ys => simp

theorem unmatchedB_length (df1 df2 : DF) (c1 c2 : String) :
    (unmatchedB df1 df2 c1 c2).length
      = (df2.rows.map (fun rb =>
          if (rowMatchesA df1 df2 c1 c2 rb).length = 0 then 1 else 0)).sum := by
  unfold unmatchedB
  rw [List.length_map,
    ← sum_map_ite_count (fun rb => (rowMatchesA df1 df2 c1 c2 rb).isEmpty) df2.rows]
  refine congrArg List.sum (map_congr_fun _ _ _ ?_)
  intro rb
  cases hm : rowMatchesA df1 df2 c1 c2 rb with
  | nil => simp
  | cons y ys => simp

/-- C8 (amended): outer-join row count dominates both the left and the
right join's, and the inner-join row count is at most
`|tableA| * fan-out` (fan-out = the largest number of B-matches of any
single A-row).  The spec's `min(|tableA|, ...)` bound does not hold. -/
theorem join_count_bounds (df1 df2 : DF) (c1 c2 : String) :
    (mergeRows df1 df2 c1 c2 JoinType.left).length
        ≤ (mergeRows df1 df2 c1 c2 JoinType.outer).length
    ∧ (mergeRows df1 df2 c1 c2 JoinType.right).length
        ≤ (mergeRows df1 df2 c1 c2 JoinType.outer).length
    ∧ (mergeRows df1 df2 c1 c2 JoinType.inner).length
        ≤ df1.rows.length * fanOut df1 df2 c1 c2 := by
  have houter : (mergeRows df1 df2 c1 c2 JoinType.outer).length
      = (leftRows df1 df2 c1 c2).length + (unmatchedB df1 df2 c1 c2).length := by
    simp [mergeRows, outerRows]
  have hleft : (leftRows df1 df2 c1 c2).length
      = (df1.rows.map (fun ra => (rowMatchesB df1 df2 c1 c2 ra).length)).sum
        + (df1.rows.map (fun ra =>
            if (rowMatchesB df1 df2 c1 c2 ra).length = 0 then 1 else 0)).sum := by
    rw [leftRows_length, sum_map_add_distrib]
  have hright : (rightRows df1 df2 c1 c2).length
      = (df2.rows.map (fun rb => (rowMatchesA df1 df2 c1 c2 rb).length)).sum
        + (df2.rows.map (fun rb =>
            if (rowMatchesA df1 df2 c1 c2 rb).length = 0 then 1 else 0)).sum := by
    rw [rightRows_length, sum_map_add_distrib]
  have hsym : (df1.rows.map (fun ra => (rowMatchesB df1 df2 c1 c2 ra).length)).sum
      = (df2.rows.map (fun rb => (rowMatchesA df1 df2 c1 c2 rb).length)).sum := by
    rw [← innerRows_length, innerRows_length_from_B]
  have hub := unmatchedB_length df1 df2 c1 c2
  refine ⟨?_, ?_, ?_⟩
  · rw [houter]
    exact Nat.le_add_right _ _
  · show (rightRows df1 df2 c1 c2).length ≤ _
    rw [houter, hleft, hright]
    omega
  · show (innerRows df1 df2 c1 c2).length ≤ _
    rw [innerRows_length]
    have h := sum_le_card_mul_max
      (df1.rows.map (fun ra => (rowMatchesB df1 df2 c1 c2 ra).length))
    rwa [List.length_map] at h

/-- C8 counterexample: with one A-row keyed `1` and two B-rows keyed
`1`, the inner join has 2 rows while `|tableA| = 1`, so the inner count
exceeds `min(|tableA|, |tableB| * fan-out)`. -/
theorem join_count_counterexample :
    (mergeRows dfA8 dfB8 "ID" "id" JoinType.inner).length = 2
    ∧ dfA8.rows.length = 1
    ∧ ¬ ((mergeRows dfA8 dfB8 "ID" "id" JoinType.inner).length
        ≤ min dfA8.rows.length (dfB8.rows.length * fanOut dfA8 dfB8 "ID" "id")) := by
  decide

/-- C7 (amended): a Table-vs-Lines mismatch does not crash and is not
coerced, but it is reported through the very same `noData` outcome
("could not detect any structured or textual data") as two empty
inputs — it is not a distinct mode-mismatch outcome. -/
theorem mode_mismatch_not_distinct (fr tsr : String → String → Nat)
    (df : DF) (lines : List String) (how : JoinType) :
    coordinator fr tsr (some df, none) (none, some lines) how = Outcome.noData
    ∧ coordinator fr tsr (none, some lines) (some df, none) how = Outcome.noData
    ∧ coordinator fr tsr (none, none) (none, none) how = Outcome.noData := by
  refine ⟨?_, ?_, ?_⟩
  · simp [coordinator, textTruthy]
  · simp [coordinator, textTruthy]
  · simp [coordinator, textTruthy]

/-- C7 counterexample: the mismatch run (table on one side, lines on the
other) lands in the same outcome value as the both-empty run. -/
theorem mode_mismatch_counterexample :
    coordinator (fun _ _ => 0) (fun _ _ => 0) (some dfC7, none) (none, some ["x"])
        JoinType.inner = Outcome.noData
    ∧ coordinator (fun _ _ => 0) (fun _ _ => 0) (none, none) (none, none)
        JoinType.inner = Outcome.noData := by
  exact ⟨rfl, rfl⟩

theorem splitCharAux_no_sep (sep : Char) :
    ∀ (l acc : List Char), sep ∉ l → splitCharAux sep l acc = [acc.reverse ++ l] := by
  intro l
  induction l with
  | nil => intro acc _; simp [splitCharAux]
  | cons c cs ih =>
    intro acc h
    have hne : ¬ c = sep := fun he => h (he ▸ List.mem_cons_self c cs)
    rw [splitCharAux, if_neg hne, ih _ (fun hm => h (List.mem_cons_of_mem c hm))]
    simp

theorem splitCharAux_sep_break (sep : Char) (rest : List Char) :
    ∀ (p acc : List Char), sep ∉ p →
      splitCharAux sep (p ++ sep :: rest) acc
        = (acc.reverse ++ p) :: splitCharAux sep rest [] := by
  intro p
  induction p with
  | nil =>
    intro acc _
    simp [splitCharAux]
  | cons c cs ih =>
    intro acc h
    have hne : ¬ c = sep := fun he => h (he ▸ List.mem_cons_self c cs)
    rw [List.cons_append, splitCharAux, if_neg hne,
      ih _ (fun hm => h (List.mem_cons_of_mem c hm))]
    simp

theorem splitChar_joinChar (sep : Char) :
    ∀ parts : List (List Char), parts ≠ [] → (∀ p ∈ parts, sep ∉ p) →
      splitChar sep (joinChar sep parts) = parts := by
  intro parts
  induction parts with
  | nil => intro h; cases h rfl
  | cons p ps ih =>
    intro _ hsep
    cases ps with
    | nil =>
      have := splitCharAux_no_sep sep p [] (hsep p (List.mem_cons_self p []))
      simpa [splitChar, joinChar] using this
    | cons q qs =>
      have hp : sep ∉ p := hsep p (List.mem_cons_self p (q :: qs))
      have hrest : ∀ r ∈ q :: qs, sep ∉ r :=
        fun r hr => hsep r (List.mem_cons_of_mem p hr)
      have hjoin : joinChar sep (p :: q :: qs) = p ++ sep :: joinChar sep (q :: qs) := rfl
      rw [splitChar, hjoin, splitCharAux_sep_break sep _ p [] hp]
      simp only [List.reverse_nil, List.nil_append]
      rw [show splitCharAux sep (joinChar sep (q :: qs)) [] 
        = splitChar sep (joinChar sep (q :: qs)) from rfl]
      rw [ih (by simp) hrest]

theorem mem_joinChar (sep : Char) (c : Char) :
    ∀ parts : List (List Char), c ∈ joinChar sep parts →
      c = sep ∨ ∃ p ∈ parts, c ∈ p := by
  intro parts
  induction parts with
  | nil => intro h; cases h
  | cons p ps ih =>
    intro h
    cases ps with
    | nil =>
      exact Or.inr ⟨p, List.mem_cons_self p [], by simpa [joinChar] using h⟩
    | cons q qs =>
      rw [show joinChar sep (p :: q :: qs) = p ++ sep :: joinChar sep (q :: qs) from rfl] at h
      rcases List.mem_append.mp h with hm | hm
      · exact Or.inr ⟨p, List.mem_cons_self p _, hm⟩
      · rcases List.mem_cons.mp hm with rfl | hm
        · exact Or.inl rfl
        · rcases ih hm with hs | ⟨r, hr, hc⟩
          · exact Or.inl hs
          · exact Or.inr ⟨r, List.mem_cons_of_mem p hr, hc⟩

theorem map_congr_mem {α β : Type} (f g : α → β) (l : List α)
    (h : ∀ a ∈ l, f a = g a) : l.map f = l.map g := by
  induction l with
  | nil => rfl
  | cons x xs ih =>
    simp only [List.map_cons, h x (List.mem_cons_self x xs),
      ih (fun a ha => h a (List.mem_cons_of_mem x ha))]

theorem map_mk_data (l : List String) :
    (l.map String.data).map (fun cs => (⟨cs⟩ : String)) = l := by
  induction l with
  | nil => rfl
  | cons s ss ih => simp only [List.map_cons, ih]

/-- C9 (amended, spec-modelled): for a table with at least one column
whose column names and cells contain neither the separator `','` nor
the record separator `'\n'`, and whose rows all match the header arity,
serialising to delimited text and re-parsing restores the table exactly
(column order and cell values preserved). -/
theorem csv_round_trip (df : DF) (hc : df.cols ≠ [])
    (hcols : ∀ c ∈ df.cols, ',' ∉ c.data ∧ '\n' ∉ c.data)
    (hrows : ∀ r ∈ df.rows, r.length = df.cols.length
      ∧ ∀ cell ∈ r, ',' ∉ cell.data ∧ '\n' ∉ cell.data) :
    parseCsv (toCsv df) = df := by
  have hnocomma_header : ∀ p ∈ df.cols.map String.data, ',' ∉ p := by
    intro p hp
    obtain ⟨c, hcmem, rfl⟩ := List.mem_map.mp hp
    exact (hcols c hcmem).1
  have hnoline_header : '\n' ∉ joinChar ',' (df.cols.map String.data) := by
    intro hm
    rcases mem_joinChar ',' '\n' _ hm with he | ⟨p, hp, hc2⟩
    · exact absurd he (by decide)
    · obtain ⟨c, hcmem, rfl⟩ := List.mem_map.mp hp
      exact (hcols c hcmem).2 hc2
  have hrowline : ∀ line ∈ df.rows.map (fun r => joinChar ',' (r.map String.data)),
      '\n' ∉ line := by
    intro line hl hm
    obtain ⟨r, hrmem, rfl⟩ := List.mem_map.mp hl
    rcases mem_joinChar ',' '\n' _ hm with he | ⟨p, hp, hc2⟩
    · exact absurd he (by decide)
    · obtain ⟨cell, hcell, rfl⟩ := List.mem_map.mp hp
      exact ((hrows r hrmem).2 cell hcell).2 hc2
  have hsplitlines : splitChar '\n' (toCsv df).data
      = joinChar ',' (df.cols.map String.data)
        :: df.rows.map (fun r => joinChar ',' (r.map String.data)) := by
    rw [show (toCsv df).data = joinChar '\n'
      (joinChar ',' (df.cols.map String.data)
        :: df.rows.map (fun r => joinChar ',' (r.map String.data))) from rfl]
    apply splitChar_joinChar
    · simp
    · intro p hp
      rcases List.mem_cons.mp hp with rfl | hp
      · exact hnoline_header
      · exact hrowline p hp
  have hheader : (splitChar ',' (joinChar ',' (df.cols.map String.data))).map
      (fun cs => (⟨cs⟩ : String)) = df.cols := by
    rw [splitChar_joinChar ',' _ (by simpa using hc) hnocomma_header]
    exact map_mk_data df.cols
  have hrowsmap : (df.rows.map (fun r => joinChar ',' (r.map String.data))).map
      (fun line => (splitChar ',' line).map (fun cs => (⟨cs⟩ : String))) = df.rows := by
    rw [List.map_map]
    rw [map_congr_mem _ id df.rows ?hpt, List.map_id]
    intro r hr
    show (splitChar ',' (joinChar ',' (r.map String.data))).map
      (fun cs => (⟨cs⟩ : String)) = r
    have hrne : r.map String.data ≠ [] := by
      intro h0
      have hr0 : r = [] := List.map_eq_nil_iff.mp h0
      have := (hrows r hr).1
      rw [hr0] at this
      exact hc (List.eq_nil_of_length_eq_zero this.symm)
    have hrnc : ∀ p ∈ r.map String.data, ',' ∉ p := by
      intro p hp
      obtain ⟨cell, hcell, rfl⟩ := List.mem_map.mp hp
      exact ((hrows r hr).2 cell hcell).1
    rw [splitChar_joinChar ',' _ hrne hrnc]
    exact map_mk_data r
  show parseRows _ = df
  rw [hsplitlines, List.map_cons, hheader, hrowsmap]
  rfl

/-- C9 counterexample: a cell containing the separator breaks the
frameless round trip — the re-parse splits `"x,y"` into two cells. -/
theorem csv_round_trip_counterexample :
    parseCsv (toCsv dfComma) = ⟨["A", "B"], [["x", "y", "z"]]⟩
    ∧ parseCsv (toCsv dfComma) ≠ dfComma := by
  decide

/-- C9 witness: the round trip applied to the joined table of the
spec's own scenario. -/
theorem csv_round_trip_w : parseCsv (toCsv dfJoined) = dfJoined :=
  csv_round_trip dfJoined (by decide) (by decide) (by decide)

/-- C1 witness: on the spec's own scenario headers, the matcher
retains `("ID", "id", 100)` and it maximises the retained scores. -/
theorem column_matcher_correct_w :
    ("ID", "id", (100 : Nat)) ∈ join_cols exactScore ["ID", "Name"] ["id", "Score"]
    ∧ ∀ q ∈ join_cols exactScore ["ID", "Name"] ["id", "Score"], q.2.2 ≤ 100 :=
  (column_matcher_correct exactScore ["ID", "Name"] ["id", "Score"]).2.2.1
    ("ID", "id", 100) (by decide)

/-- C6 witness: the never-both theorem applied to a txt upload. -/
theorem extract_from_file_never_both_w :
    ((none, some ["alpha", "beta"]) : Option DF × Option (List String)).1 = none
    ∨ ((none, some ["alpha", "beta"]) : Option DF × Option (List String)).2 = none :=
  extract_from_file_never_both txtNotes (none, some ["alpha", "beta"]) rfl

/-- C10 witness: a permuted-and-duplicated `linesB` yields the same
output. -/
theorem find_common_text_mem_invariant_w :
    find_common_text exactScore ["a", "c"] ["b", "a", "a"] 85
      = find_common_text exactScore ["a", "c"] ["a", "b"] 85 :=
  find_common_text_mem_invariant exactScore ["a", "c"] ["b", "a", "a"] ["a", "b"] 85
    (by
      intro l
      simp only [List.mem_cons, List.not_mem_nil, or_false]
      tauto)

end PdfJoiner
